import Mathlib

/-!
# StorageClass default-annotation controller (`main.go`)

A shallow embedding of the controller in `main.go` and the properties proved about it.

Modelling conventions.

* Go strings and byte slices are Lean strings.  Every byte test of the embedded code compares
  against an ASCII character, and an ASCII byte never occurs inside a multi-byte UTF-8 sequence,
  so scanning characters and scanning bytes agree on UTF-8 text.
* A Go `map[string]string` is an optional association list (`none` is the nil map); indexing
  returns the zero value `""` for an absent key, as in Go.
* Effects are explicit: a function that talks to the cluster or to the log takes the trace of
  events so far and returns the extended trace.  `log.Fatal` and `os.Exit` end the run with an
  exit code.
* The cluster client is an external collaborator; it is a parameter.  The functions that
  serialize take the serializer as a parameter too; `jsonMarshal` embeds the `json.Marshal` of
  the Go standard library at the payload type, the serializer the program runs.
* `time.ParseDuration` is embedded from the Go standard library (package `time`).
-/

set_option autoImplicit false

namespace StorageClassController

/-! ## Data model -/

/-- Go `map[string]string`; `none` is the nil map. -/
abbrev GoMap := Option (List (String × String))

/-- Presence test with value, the Go `v, ok := m[k]` form. -/
def GoMap.get? (m : GoMap) (k : String) : Option String :=
  match m with
  | none => none
  | some kvs => kvs.lookup k

/-- Go index expression `m[k]`: the zero value `""` when the key is absent or the map is nil. -/
def GoMap.index (m : GoMap) (k : String) : String :=
  (m.get? k).getD ""

/-- The fields of `metav1.ObjectMeta` the program reads. -/
structure ObjectMeta where
  Name : String
  Annotations : GoMap
  deriving DecidableEq, Repr

/-- An item of `StorageClassList.Items`; `Name` is promoted from the embedded `ObjectMeta`. -/
structure StorageClass where
  ObjectMeta : ObjectMeta
  deriving DecidableEq, Repr

/-- The promoted field `storageClass.Name`. -/
def StorageClass.Name (sc : StorageClass) : String := sc.ObjectMeta.Name

/-- The annotation that marks a class as the default StorageClass. -/
def isDefaultStorageClassAnnotation : String := "storageclass.kubernetes.io/is-default-class"

/-- A patch operation for a string. -/
structure patchStringValue where
  Op : String
  Path : String
  Value : String
  deriving DecidableEq, Repr

/-- The constant `types.JSONPatchType` of `k8s.io/apimachinery/pkg/types`. -/
def JSONPatchType : String := "application/json-patch+json"

/-- Observable events of a run, in order of occurrence. -/
inductive Event where
  | log (line : String)
  | listCall
  | patchCall (name : String) (pt : String) (data : String)
  deriving DecidableEq, Repr

/-- Outcome of a piece of the program: it returns, or the process ends with an exit code. -/
inductive Run (α : Type) where
  | ret (a : α) (trace : List Event)
  | exit (code : Nat) (trace : List Event)
  deriving DecidableEq, Repr

/-- The trace carried by an outcome. -/
def Run.trace {α : Type} : Run α → List Event
  | .ret _ t => t
  | .exit _ t => t

/-- The cluster API client: its answers may depend on everything that happened so far.
`listResp` answers a `List` call, `patchErr` is the error of a `Patch` call (`none` is nil). -/
structure Clientset where
  listResp : List Event → Except String (List StorageClass)
  patchErr : List Event → Option String

/-- The signature of `json.Marshal` at the payload type: the bytes and the error (`none` is nil). -/
abbrev Marshal := List patchStringValue → String × Option String

/-! ## `isDefaultAnnotation` -/

/-- Source `isDefaultAnnotation` (main.go 31-36). -/
def isDefaultAnnotation (obj : ObjectMeta) : Bool :=
  if obj.Annotations.index isDefaultStorageClassAnnotation == "true" then
    true
  else
    false

/-! ## `patchDefaultAnnotation` -/

/-- The local `payload` of `patchDefaultAnnotation` (main.go 41-47). -/
def payload : List patchStringValue :=
  [{ Op := "replace",
     Path := "/metadata/annotations/storageclass.kubernetes.io~1is-default-class",
     Value := "false" }]

/-- Source `patchDefaultAnnotation` (main.go 39-55).  The error of `json.Marshal` is bound to
the blank identifier; only the error of `Patch` is inspected. -/
def patchDefaultAnnotation (marshal : Marshal) (clientset : Clientset)
    (storageClassName : String) (trace : List Event) : Run Unit :=
  let payloadBytes := (marshal payload).1
  let trace1 := trace ++ [Event.patchCall storageClassName JSONPatchType payloadBytes]
  match clientset.patchErr trace1 with
  | some err => Run.exit 1 (trace1 ++ [Event.log err])
  | none =>
    Run.ret () (trace1 ++
      [Event.log ("StorageClass " ++ storageClassName ++ " was successfully patched")])

/-! ## One reconciliation pass -/

/-- The `for _, storageClass := range storageClasses.Items` loop (main.go 129-137). -/
def rangeItems (marshal : Marshal) (clientset : Clientset) (storageClassName : String) :
    List StorageClass → List Event → Run Unit
  | [], trace => Run.ret () trace
  | storageClass :: rest, trace =>
    if isDefaultAnnotation storageClass.ObjectMeta && storageClass.Name == storageClassName then
      match patchDefaultAnnotation marshal clientset storageClassName
          (trace ++ [Event.log ("StoragaClass " ++ storageClassName ++ " is default annotated")])
      with
      | Run.ret _ trace2 => rangeItems marshal clientset storageClassName rest trace2
      | Run.exit code trace2 => Run.exit code trace2
    else if ! isDefaultAnnotation storageClass.ObjectMeta
        && storageClass.Name == storageClassName then
      rangeItems marshal clientset storageClassName rest
        (trace ++ [Event.log ("StorageClass " ++ storageClassName ++ " is not default annotated")])
    else
      rangeItems marshal clientset storageClassName rest trace

/-- The list call and the loop over its items (main.go 119-137). -/
def reconcilePass (marshal : Marshal) (clientset : Clientset) (storageClassName : String)
    (trace : List Event) : Run Unit :=
  let trace1 := trace ++ [Event.listCall]
  match clientset.listResp trace1 with
  | Except.error err => Run.exit 1 (trace1 ++ [Event.log err])
  | Except.ok storageClasses =>
    rangeItems marshal clientset storageClassName storageClasses trace1

/-- The `Patch` calls of a trace, in order. -/
def patchCalls : List Event → List (String × String × String)
  | [] => []
  | Event.patchCall name pt data :: rest => (name, pt, data) :: patchCalls rest
  | _ :: rest => patchCalls rest

/-- The `List` and `Patch` calls of a trace, in order. -/
def apiCalls (trace : List Event) : List Event :=
  trace.filter fun e =>
    match e with
    | Event.log _ => false
    | _ => true

/-- A resource matches when it has the target name and carries the default marker. -/
def matchesTarget (storageClassName : String) (sc : StorageClass) : Bool :=
  sc.Name == storageClassName && isDefaultAnnotation sc.ObjectMeta

/-! ## Durations -/

/-- Go `time.Duration`: a signed 64-bit count of nanoseconds. -/
abbrev Duration := Int

/-- Conversion to `int64` and `int64` arithmetic results: reduction into `[-2^63, 2^63)`. -/
def wrapInt64 (x : Int) : Int := (x + 2 ^ 63) % 2 ^ 64 - 2 ^ 63

/-- Results of `uint64` arithmetic. -/
def wrapUint64 (n : Nat) : Nat := n % 2 ^ 64

/-- The constant `time.Second`. -/
def Second : Duration := 1000000000

/-- The constant `time.Minute`. -/
def Minute : Duration := 60 * Second

/-- The floating-point expression `uint64(float64(f) * (float64(unit) / scale))` of
`time.ParseDuration`, as a function of `f`, `unit` and `scale`.  Floating point is not embedded:
the function is a parameter of the parser. -/
abbrev FracNanos := Nat → Nat → Nat → Nat

/-- The table `unitMap` of package `time`. -/
def unitMap (u : String) : Option Nat :=
  if u = "ns" then some 1
  else if u = "us" then some 1000
  else if u = "µs" then some 1000
  else if u = "μs" then some 1000
  else if u = "ms" then some 1000000
  else if u = "s" then some 1000000000
  else if u = "m" then some 60000000000
  else if u = "h" then some 3600000000000
  else none

/-- The loop of `leadingInt` of package `time` with accumulator `x`; `none` is `errLeadingInt`. -/
def leadingIntLoop (x : Nat) : List Char → Option (Nat × List Char)
  | [] => some (x, [])
  | c :: cs =>
    if c.toNat < 48 || c.toNat > 57 then some (x, c :: cs)
    else if x > 2 ^ 63 / 10 then none
    else
      let x1 := wrapUint64 (x * 10 + c.toNat - 48)
      if x1 > 2 ^ 63 then none else leadingIntLoop x1 cs

/-- Package `time`, `leadingInt`: consumes the leading `[0-9]*`. -/
def leadingInt (s : List Char) : Option (Nat × List Char) := leadingIntLoop 0 s

/-- The loop of `leadingFraction` of package `time`.  `scale` only takes the values
`10^k` with `k ≤ 19`, which `float64` represents exactly. -/
def leadingFractionLoop (x scale : Nat) (overflow : Bool) : List Char → Nat × Nat × List Char
  | [] => (x, scale, [])
  | c :: cs =>
    if c.toNat < 48 || c.toNat > 57 then (x, scale, c :: cs)
    else if overflow then leadingFractionLoop x scale overflow cs
    else if x > (2 ^ 63 - 1) / 10 then leadingFractionLoop x scale true cs
    else
      let y := wrapUint64 (x * 10 + c.toNat - 48)
      if y > 2 ^ 63 then leadingFractionLoop x scale true cs
      else leadingFractionLoop y (scale * 10) false cs

/-- Package `time`, `leadingFraction`: consumes the leading `[0-9]*` after a period. -/
def leadingFraction (s : List Char) : Nat × Nat × List Char := leadingFractionLoop 0 1 false s

/-- The unit scan of `ParseDuration`: the characters before the first `.` or digit, and
the rest. -/
def unitSpan : List Char → List Char × List Char
  | [] => ([], [])
  | c :: cs =>
    if c == '.' || (48 ≤ c.toNat && c.toNat ≤ 57) then ([], c :: cs)
    else ((c :: (unitSpan cs).1), (unitSpan cs).2)

/-- The step `Consume (\.[0-9]*)?` of `ParseDuration` on the rest `s1` after the integer part:
`f`, `scale`, the rest after the fraction, and `post` (whether a digit followed the period).
Without a period `f = 0`, `scale = 1`, and `post` is false. -/
def fractionPart (s1 : List Char) : Nat × Nat × List Char × Bool :=
  match s1 with
  | c1 :: t =>
    if c1 == '.' then
      ((leadingFraction t).1, (leadingFraction t).2.1, (leadingFraction t).2.2,
        t.length != (leadingFraction t).2.2.length)
    else (0, 1, s1, false)
  | [] => (0, 1, s1, false)

/-- One round of the `for s != ""` loop of `time.ParseDuration` on the non-empty rest
`c :: cs` with the accumulated `d`: the rest and the accumulator after the round; `none` is an
error. -/
def parseRound (frac : FracNanos) (c : Char) (cs : List Char) (d : Nat) :
    Option (List Char × Nat) :=
  if !(c == '.' || (48 ≤ c.toNat && c.toNat ≤ 57)) then none
  else
    match leadingInt (c :: cs) with
    | none => none
    | some (v, s1) =>
      let pre := (c :: cs).length != s1.length
      let fr := fractionPart s1
      let f := fr.1
      let scale := fr.2.1
      let s2 := fr.2.2.1
      let post := fr.2.2.2
      if !pre && !post then none
      else
        let u := (unitSpan s2).1
        let s3 := (unitSpan s2).2
        if u.length == 0 then none
        else
          match unitMap (String.mk u) with
          | none => none
          | some unit =>
            if v > 2 ^ 63 / unit then none
            else
              let v1 := wrapUint64 (v * unit)
              let v2 := if f > 0 then wrapUint64 (v1 + wrapUint64 (frac f unit scale)) else v1
              if f > 0 && v2 > 2 ^ 63 then none
              else
                let d1 := wrapUint64 (d + v2)
                if d1 > 2 ^ 63 then none else some (s3, d1)

/-- The `for s != ""` loop of `time.ParseDuration` with the accumulated `d`; `none` is an
error.  Every round consumes at least one character, so `fuel = s.length` rounds suffice
(`parseLoop_fuel`). -/
def parseLoop (frac : FracNanos) : Nat → List Char → Nat → Option Nat
  | _, [], d => some d
  | 0, _ :: _, _ => none
  | fuel + 1, c :: cs, d =>
    match parseRound frac c cs d with
    | none => none
    | some (s3, d1) => parseLoop frac fuel s3 d1

/-- Go `time.ParseDuration` (package `time` of the standard library, the current release;
older releases differ only in how magnitudes of `2^63` and above are rejected).
`none` is a non-nil error. -/
def ParseDuration (frac : FracNanos) (s : String) : Option Duration :=
  let orig := s.data
  let sign : Bool × List Char :=
    match orig with
    | c :: t => if c == '-' || c == '+' then (c == '-', t) else (false, orig)
    | [] => (false, orig)
  let neg := sign.1
  let s1 := sign.2
  if s1 = ['0'] then some 0
  else if s1 = [] then none
  else
    match parseLoop frac s1.length s1 0 with
    | none => none
    | some d =>
      if neg then some (wrapInt64 (-(wrapInt64 (d : Int))))
      else if d > 2 ^ 63 - 1 then none
      else some (wrapInt64 (d : Int))

/-- The process environment: `none` is an unset variable. -/
abbrev Environ := String → Option String

/-- Go `os.Getenv`: the value, or `""` when the variable is unset. -/
def Getenv (environ : Environ) (key : String) : String := (environ key).getD ""

/-- The last byte `val[len(val)-1]` of a non-empty string, as a number. -/
def lastByte (val : String) : Nat :=
  ((val.toUTF8.data.toList.getLast?).map UInt8.toNat).getD 0

/-- Source `durFromEnv` (main.go 58-72).  `none` is `log.Fatalf`: the process ends with
exit status 1. -/
def durFromEnv (frac : FracNanos) (environ : Environ) (env : String) (dflt : Duration) :
    Option Duration :=
  let val := Getenv environ env
  if val = "" then some dflt
  else
    let r := lastByte val
    let val1 := if r ≥ 48 || r ≤ 57 then val ++ "s" else val
    match ParseDuration frac val1 with
    | none => none
    | some d => some d

/-- The value of a string of decimal digits, most significant digit first. -/
def decimalValue (ds : List Char) : Nat :=
  ds.foldl (fun acc c => acc * 10 + (c.toNat - 48)) 0

/-- A placeholder for the floating-point step, used where a concrete parser is evaluated on
inputs without a fractional part. -/
def fracZero : FracNanos := fun _ _ _ => 0

/-! ## The lifecycle loop of `main` -/

/-- The start-up assignment of `storageClassName` (main.go 91-94). -/
def storageClassName (environ : Environ) : String :=
  if Getenv environ "STORAGE_CLASS_NAME" = "" then "gp2" else Getenv environ "STORAGE_CLASS_NAME"

/-- The start-up value `checkInterval` (main.go 97). -/
def checkInterval (frac : FracNanos) (environ : Environ) : Option Duration :=
  durFromEnv frac environ "CHECK_INTERVAL" (20 * Second)

/-- The closure `stop` of `main` (main.go 85-88). -/
def stop (trace : List Event) : Run Unit :=
  Run.exit 0 (trace ++ [Event.log "Shutting down"])

/-- Positions of the `for` loop of `main`: the non-blocking `select` before a pass
(main.go 113-117), the pass (119-137), the blocking `select` after it (141-145), and the
terminated process. -/
inductive Pos where
  | check
  | pass
  | wait
  | exited (code : Nat)
  deriving DecidableEq, Repr

/-- State of the lifecycle loop. -/
structure LoopState where
  pos : Pos
  trace : List Event
  deriving DecidableEq, Repr

/-- The state a finished piece of the program leaves the loop in. -/
def LoopState.ofRun (next : Pos) : Run Unit → LoopState
  | Run.ret _ t => { pos := next, trace := t }
  | Run.exit code t => { pos := Pos.exited code, trace := t }

/-- One step of the loop.  `signal` says whether the `select` at a checkpoint receives from
`signalCh` (at `check`: a value is ready; at `wait`: it arrives before the timer).  During a
pass no signal is observed.  A terminated process takes no step. -/
def step (marshal : Marshal) (clientset : Clientset) (name : String) (signal : Bool)
    (s : LoopState) : Option LoopState :=
  match s.pos with
  | Pos.check =>
    if signal then some (LoopState.ofRun Pos.pass (stop s.trace))
    else some { pos := Pos.pass, trace := s.trace }
  | Pos.pass => some (LoopState.ofRun Pos.wait (reconcilePass marshal clientset name s.trace))
  | Pos.wait =>
    if signal then some (LoopState.ofRun Pos.check (stop s.trace))
    else some { pos := Pos.check, trace := s.trace }
  | Pos.exited _ => none

/-- The loop driven by a schedule of signal observations, one per step. -/
def runLoop (marshal : Marshal) (clientset : Clientset) (name : String) :
    List Bool → LoopState → LoopState
  | [], s => s
  | signal :: rest, s =>
    match step marshal clientset name signal s with
    | none => s
    | some s1 => runLoop marshal clientset name rest s1

/-! ## JSON Pointer (RFC 6901) -/

/-- RFC 6901 escaping of a reference token: `~` becomes `~0` and `/` becomes `~1`. -/
def rfc6901Escape : List Char → List Char
  | [] => []
  | c :: cs =>
    if c = '~' then '~' :: '0' :: rfc6901Escape cs
    else if c = '/' then '~' :: '1' :: rfc6901Escape cs
    else c :: rfc6901Escape cs

/-- RFC 6901 unescaping of a reference token: `~1` becomes `/` and `~0` becomes `~`. -/
def rfc6901Unescape : List Char → List Char
  | [] => []
  | [c] => [c]
  | c :: d :: cs =>
    if c = '~' ∧ d = '1' then '/' :: rfc6901Unescape cs
    else if c = '~' ∧ d = '0' then '~' :: rfc6901Unescape cs
    else c :: rfc6901Unescape (d :: cs)

/-- The raw reference tokens of the text after a `/`: the pieces between `/` characters. -/
def splitSlash : List Char → List (List Char)
  | [] => [[]]
  | c :: cs =>
    if c = '/' then [] :: splitSlash cs
    else
      match splitSlash cs with
      | [] => [[c]]
      | t :: ts => (c :: t) :: ts

/-- RFC 6901 evaluation of the text of a pointer into its reference tokens; `none` when a
non-empty pointer does not start with `/`. -/
def pointerTokens (p : String) : Option (List String) :=
  match p.data with
  | [] => some []
  | c :: cs =>
    if c = '/' then some ((splitSlash cs).map fun t => String.mk (rfc6901Unescape t))
    else none

/-! ## `json.Marshal` at the payload type -/

/-- The table `hex` of package `encoding/json`. -/
def hexChar (n : Nat) : Char := ("0123456789abcdef".data).getD n '0'

/-- The escaping of one character by the string encoder of `encoding/json` with HTML escaping
on, as `json.Marshal` runs it (the current release; older releases write `\u0008` and `\u000c`
for backspace and form feed). -/
def jsonEscapeChar (c : Char) : List Char :=
  if c.toNat = 34 ∨ c.toNat = 92 then [Char.ofNat 92, c]
  else if c.toNat = 8 then [Char.ofNat 92, 'b']
  else if c.toNat = 12 then [Char.ofNat 92, 'f']
  else if c.toNat = 10 then [Char.ofNat 92, 'n']
  else if c.toNat = 13 then [Char.ofNat 92, 'r']
  else if c.toNat = 9 then [Char.ofNat 92, 't']
  else if c.toNat < 32 ∨ c = '<' ∨ c = '>' ∨ c = '&' then
    [Char.ofNat 92, 'u', '0', '0', hexChar (c.toNat / 16), hexChar (c.toNat % 16)]
  else if c.toNat = 8232 ∨ c.toNat = 8233 then
    [Char.ofNat 92, 'u', '2', '0', '2', hexChar (c.toNat % 16)]
  else [c]

/-- The JSON text of a Go string. -/
def jsonString (s : String) : List Char :=
  [Char.ofNat 34] ++ (s.data.map jsonEscapeChar).flatten ++ [Char.ofNat 34]

/-- The JSON text of one `patchStringValue`: its three fields in declaration order under the
names of their `json` tags (main.go 25-27). -/
def jsonPatchStringValue (p : patchStringValue) : List Char :=
  [Char.ofNat 123] ++ jsonString "op" ++ [':'] ++ jsonString p.Op ++ [','] ++
    jsonString "path" ++ [':'] ++ jsonString p.Path ++ [','] ++
    jsonString "value" ++ [':'] ++ jsonString p.Value ++ [Char.ofNat 125]

/-- The elements of a JSON array, separated by commas. -/
def jsonElements : List patchStringValue → List Char
  | [] => []
  | [p] => jsonPatchStringValue p
  | p :: q :: rest => jsonPatchStringValue p ++ [','] ++ jsonElements (q :: rest)

/-- Go `json.Marshal` (package `encoding/json` of the standard library) applied to a non-nil
`[]patchStringValue`, the one call of main.go 48.  The encoder of a slice of structs with
string fields has no failing case (no unsupported type, no cycle, no custom marshaler, no
non-finite number; invalid UTF-8 is replaced, not rejected), so the error is always nil. -/
def jsonMarshal : Marshal := fun v =>
  (String.mk (['['] ++ jsonElements v ++ [']']), none)

/-! ## Concrete collaborators used in examples -/

/-- A client whose calls all succeed and whose list is fixed. -/
def fixedClient (items : List StorageClass) : Clientset :=
  { listResp := fun _ => Except.ok items, patchErr := fun _ => none }

/-- A serializer that succeeds with a fixed text. -/
def textMarshal : Marshal := fun _ => ("PATCH", none)

/-- A StorageClass with the given name and value of the default marker. -/
def markedClass (name value : String) : StorageClass :=
  { ObjectMeta := { Name := name, Annotations := some [( isDefaultStorageClassAnnotation, value)] } }

/-- An environment with one variable set. -/
def oneVar (key value : String) : Environ := fun k => if k = key then some value else none

/-! ## Helper lemmas -/

theorem patchCalls_append (a b : List Event) :
    patchCalls (a ++ b) = patchCalls a ++ patchCalls b := by
  induction a with
  | nil => rfl
  | cons e rest ih =>
    cases e <;> simp [patchCalls, ih]

theorem isDefaultAnnotation_eq_true (obj : ObjectMeta) :
    isDefaultAnnotation obj = true ↔
      obj.Annotations.get? isDefaultStorageClassAnnotation = some "true" := by
  unfold isDefaultAnnotation GoMap.index
  cases h : obj.Annotations.get? isDefaultStorageClassAnnotation with
  | none => simp
  | some v => simp

theorem patchDefaultAnnotation_ok (marshal : Marshal) (clientset : Clientset) (name : String)
    (trace : List Event) (hpatch : ∀ t, clientset.patchErr t = none) :
    patchDefaultAnnotation marshal clientset name trace =
      Run.ret () (trace ++ [Event.patchCall name JSONPatchType (marshal payload).1,
        Event.log ("StorageClass " ++ name ++ " was successfully patched")]) := by
  simp [ patchDefaultAnnotation, hpatch]

theorem rangeItems_ok (marshal : Marshal) (clientset : Clientset) (name : String)
    (hpatch : ∀ t, clientset.patchErr t = none) (items : List StorageClass) :
    ∀ trace : List Event, ∃ added : List Event,
      rangeItems marshal clientset name items trace = Run.ret () (trace ++ added) ∧
      patchCalls added = (items.filter (matchesTarget name)).map
        (fun _ => (name, JSONPatchType, (marshal payload).1)) := by
  induction items with
  | nil => intro trace; exact ⟨[], by simp [rangeItems], rfl⟩
  | cons sc rest ih =>
    intro trace
    by_cases hd : isDefaultAnnotation sc.ObjectMeta = true
    · by_cases hn : sc.Name = name
      · obtain ⟨added, hrun, hcalls⟩ := ih (trace ++
          [Event.log ("StoragaClass " ++ name ++ " is default annotated")] ++
          [Event.patchCall name JSONPatchType (marshal payload).1,
            Event.log ("StorageClass " ++ name ++ " was successfully patched")])
        refine ⟨[Event.log ("StoragaClass " ++ name ++ " is default annotated")] ++
          [Event.patchCall name JSONPatchType (marshal payload).1,
            Event.log ("StorageClass " ++ name ++ " was successfully patched")] ++ added, ?_, ?_⟩
        · simp only [rangeItems, hd, hn, beq_self_eq_true, Bool.and_self, if_true,
            patchDefaultAnnotation_ok marshal clientset name _ hpatch]
          simpa [List.append_assoc] using hrun
        · simp [patchCalls_append, patchCalls, hcalls, matchesTarget, hd, hn]
      · obtain ⟨added, hrun, hcalls⟩ := ih trace
        refine ⟨added, ?_, ?_⟩
        · simp [rangeItems, hd, hn, hrun]
        · simp [hcalls, matchesTarget, hd, hn]
    · by_cases hn : sc.Name = name
      · obtain ⟨added, hrun, hcalls⟩ := ih (trace ++
          [Event.log ("StorageClass " ++ name ++ " is not default annotated")])
        refine ⟨[Event.log ("StorageClass " ++ name ++ " is not default annotated")] ++ added,
          ?_, ?_⟩
        · simp only [rangeItems, hd, hn, beq_self_eq_true, Bool.false_and, Bool.not_false,
            Bool.and_self, if_true, Bool.false_eq_true, if_false]
          simpa [List.append_assoc] using hrun
        · simp [patchCalls_append, patchCalls, hcalls, matchesTarget, hd, hn]
      · obtain ⟨added, hrun, hcalls⟩ := ih trace
        refine ⟨added, ?_, ?_⟩
        · simp [rangeItems, hd, hn, hrun]
        · simp [hcalls, matchesTarget, hd, hn]

theorem rangeItems_no_match (marshal : Marshal) (clientset : Clientset) (name : String)
    (items : List StorageClass)
    (hno : ∀ sc ∈ items, matchesTarget name sc = false) :
    ∀ trace : List Event, ∃ added : List Event,
      rangeItems marshal clientset name items trace = Run.ret () (trace ++ added) ∧
      patchCalls added = [] := by
  induction items with
  | nil => intro trace; exact ⟨[], by simp [rangeItems], rfl⟩
  | cons sc rest ih =>
    intro trace
    have hsc : matchesTarget name sc = false := hno sc (List.mem_cons_self _ _)
    have hrest : ∀ x ∈ rest, matchesTarget name x = false :=
      fun x hx => hno x (List.mem_cons_of_mem _ hx)
    by_cases hn : sc.Name = name
    · have hd : isDefaultAnnotation sc.ObjectMeta = false := by
        simpa [matchesTarget, hn] using hsc
      obtain ⟨added, hrun, hcalls⟩ := ih hrest (trace ++
        [Event.log ("StorageClass " ++ name ++ " is not default annotated")])
      refine ⟨[Event.log ("StorageClass " ++ name ++ " is not default annotated")] ++ added,
        ?_, ?_⟩
      · simp only [rangeItems, hd, hn, beq_self_eq_true, Bool.false_and, Bool.not_false,
          Bool.and_self, if_true, Bool.false_eq_true, if_false]
        simpa [List.append_assoc] using hrun
      · simp [patchCalls_append, patchCalls, hcalls]
    · obtain ⟨added, hrun, hcalls⟩ := ih hrest trace
      exact ⟨added, by simp [rangeItems, hn, hrun], hcalls⟩

theorem matchesTarget_eq_false (name : String) (sc : StorageClass)
    (h : ¬ (sc.Name = name ∧
      sc.ObjectMeta.Annotations.get? isDefaultStorageClassAnnotation = some "true")) :
    matchesTarget name sc = false := by
  by_cases hm : matchesTarget name sc = true
  · exfalso
    apply h
    simp only [matchesTarget, Bool.and_eq_true, beq_iff_eq] at hm
    exact ⟨hm.1, (isDefaultAnnotation_eq_true _).1 hm.2⟩
  · simpa using hm

theorem runLoop_exited (marshal : Marshal) (clientset : Clientset) (name : String)
    (code : Nat) (trace : List Event) (schedule : List Bool) :
    runLoop marshal clientset name schedule { pos := Pos.exited code, trace := trace } =
      { pos := Pos.exited code, trace := trace } := by
  cases schedule <;> simp [runLoop, step]

/-! ## The annotation predicate -/

/-- C1: for every object metadata, also with a nil or empty annotation map,
`isDefaultAnnotation` is true exactly when the map holds the default-marker key with the value
`"true"`; the comparison is exact (`"True"` and `"false"` give false, as does an absent key). -/
theorem isDefaultAnnotation_iff_marker_true (obj : ObjectMeta) :
    ( isDefaultAnnotation obj = true ↔
      obj.Annotations.get? isDefaultStorageClassAnnotation = some "true") ∧
    ( isDefaultAnnotation obj = false ↔
      obj.Annotations.get? isDefaultStorageClassAnnotation ≠ some "true") ∧
    isDefaultAnnotation { obj with Annotations := none } = false ∧
    isDefaultAnnotation { obj with Annotations := some [] } = false ∧
    isDefaultAnnotation
      { obj with Annotations := some [( isDefaultStorageClassAnnotation, "true")] } = true ∧
    isDefaultAnnotation
      { obj with Annotations := some [( isDefaultStorageClassAnnotation, "True")] } = false ∧
    isDefaultAnnotation
      { obj with Annotations := some [( isDefaultStorageClassAnnotation, "false")] } = false ∧
    isDefaultAnnotation
      { obj with Annotations := some [( isDefaultStorageClassAnnotation, " true")] } = false := by
  refine ⟨isDefaultAnnotation_eq_true obj, ?_, ?_, ?_, ?_, ?_, ?_, ?_⟩
  · have h := isDefaultAnnotation_eq_true obj
    cases hb : isDefaultAnnotation obj
    · simp only [true_iff]
      intro hc
      rw [h.2 hc] at hb
      exact Bool.noConfusion hb
    · simp only [Bool.true_eq_false, false_iff, ne_eq, not_not]
      exact h.1 hb
  all_goals
    simp [ isDefaultAnnotation, GoMap.index, GoMap.get?, List.lookup]

/-! ## The reconciliation pass -/

/-- C2: when the list call returns `items` and every patch call succeeds, one reconciliation
pass returns normally and the patch calls it issues are, in list order, one per listed resource
that has the target name and the default marker `"true"`; each is addressed to the target
name, has the JSON-patch type and carries the serialized `payload`. -/
theorem reconcilePass_patches_every_match (marshal : Marshal) (clientset : Clientset)
    (name : String) (trace : List Event) (items : List StorageClass)
    (hlist : clientset.listResp (trace ++ [Event.listCall]) = Except.ok items)
    (hpatch : ∀ t, clientset.patchErr t = none) :
    ∃ added : List Event,
      reconcilePass marshal clientset name trace = Run.ret () (trace ++ added) ∧
      patchCalls added =
        (items.filter fun sc => sc.Name == name && isDefaultAnnotation sc.ObjectMeta).map
          (fun _ => (name, JSONPatchType, (marshal payload).1)) ∧
      (patchCalls added).length =
        (items.filter fun sc => sc.Name == name && isDefaultAnnotation sc.ObjectMeta).length := by
  obtain ⟨added, hrun, hcalls⟩ :=
    rangeItems_ok marshal clientset name hpatch items (trace ++ [Event.listCall])
  refine ⟨[Event.listCall] ++ added, ?_, ?_, ?_⟩
  · simp only [reconcilePass, hlist]
    simpa [List.append_assoc] using hrun
  · simpa [patchCalls_append, patchCalls, matchesTarget] using hcalls
  · have h := congrArg List.length hcalls
    simpa [patchCalls_append, patchCalls, matchesTarget] using h

/-- Witness for C2: a list holding a class `gp2` marked `"true"`, a class `gp2` marked
`"false"` and a class `standard` marked `"true"`, reconciled with target `gp2`, gives exactly
one patch call, addressed to `gp2`. -/
theorem reconcilePass_patches_every_match_witness :
    ∃ added : List Event,
      reconcilePass textMarshal
          (fixedClient [markedClass "gp2" "true", markedClass "gp2" "false",
            markedClass "standard" "true"]) "gp2" [] = Run.ret () ([] ++ added) ∧
      patchCalls added = [("gp2", JSONPatchType, "PATCH")] ∧
      (patchCalls added).length = 1 := by
  obtain ⟨added, hrun, hcalls, hlen⟩ :=
    reconcilePass_patches_every_match textMarshal
      (fixedClient [markedClass "gp2" "true", markedClass "gp2" "false",
        markedClass "standard" "true"]) "gp2" []
      [markedClass "gp2" "true", markedClass "gp2" "false", markedClass "standard" "true"]
      rfl (fun _ => rfl)
  exact ⟨added, hrun, hcalls.trans (by decide), hlen.trans (by decide)⟩

/-- C3: when the list call returns `items` and no listed resource both has the target name
and carries the default marker with value `"true"`, one reconciliation pass returns normally
and issues no patch call, whatever the client would answer to one. -/
theorem reconcilePass_no_match_no_patch (marshal : Marshal) (clientset : Clientset)
    (name : String) (trace : List Event) (items : List StorageClass)
    (hlist : clientset.listResp (trace ++ [Event.listCall]) = Except.ok items)
    (hno : ∀ sc ∈ items, ¬ (sc.Name = name ∧
      sc.ObjectMeta.Annotations.get? isDefaultStorageClassAnnotation = some "true")) :
    ∃ added : List Event,
      reconcilePass marshal clientset name trace = Run.ret () (trace ++ added) ∧
      patchCalls added = [] := by
  obtain ⟨added, hrun, hcalls⟩ :=
    rangeItems_no_match marshal clientset name items
      (fun sc hsc => matchesTarget_eq_false name sc (hno sc hsc)) (trace ++ [Event.listCall])
  refine ⟨[Event.listCall] ++ added, ?_, ?_⟩
  · simp only [reconcilePass, hlist]
    simpa [List.append_assoc] using hrun
  · simpa [patchCalls_append, patchCalls] using hcalls

/-- Witness for C3: the target `gp2` already marked `"false"` next to a class `standard`
marked `"true"`. -/
theorem reconcilePass_no_match_no_patch_witness :
    ∃ added : List Event,
      reconcilePass textMarshal
          (fixedClient [markedClass "gp2" "false", markedClass "standard" "true"]) "gp2" [] =
        Run.ret () ([] ++ added) ∧
      patchCalls added = [] :=
  reconcilePass_no_match_no_patch textMarshal
    (fixedClient [markedClass "gp2" "false", markedClass "standard" "true"]) "gp2" []
    [markedClass "gp2" "false", markedClass "standard" "true"] rfl (by decide)

/-! ## The patch payload -/

/-- C4: for every target name the payload is a list of exactly one operation, with op
`"replace"`, value `"false"` and a path equal to `/metadata/annotations/` followed by the
RFC 6901 escaping of the default-marker key; evaluating that pointer gives the reference tokens
`metadata`, `annotations` and the key; and the one patch call of `patchDefaultAnnotation`,
addressed to the target name, carries the serialization of this payload. -/
theorem payload_is_rfc6901_replace (marshal : Marshal) (clientset : Clientset)
    (name : String) (trace : List Event) :
    payload =
      [{ Op := "replace",
         Path := "/metadata/annotations/" ++
           String.mk (rfc6901Escape isDefaultStorageClassAnnotation.data),
         Value := "false" }] ∧
    payload.length = 1 ∧
    payload.map (fun p => pointerTokens p.Path) =
      [some ["metadata", "annotations", isDefaultStorageClassAnnotation]] ∧
    patchCalls ( patchDefaultAnnotation marshal clientset name trace).trace =
      patchCalls trace ++ [(name, JSONPatchType, (marshal payload).1)] := by
  refine ⟨by decide, rfl, by decide, ?_⟩
  unfold patchDefaultAnnotation
  cases h : clientset.patchErr
      (trace ++ [Event.patchCall name JSONPatchType (marshal payload).1]) <;>
    simp [h, Run.trace, patchCalls_append, patchCalls]

/-- Whatever the serializer returns, `patchDefaultAnnotation` issues exactly one patch call,
carrying the bytes the serializer returned, and it ends the process (exit status 1) exactly
when that patch call returns an error. -/
theorem patchDefaultAnnotation_calls (marshal : Marshal)
    (clientset : Clientset) (name : String) (trace : List Event) :
    patchCalls ( patchDefaultAnnotation marshal clientset name trace).trace =
      patchCalls trace ++ [(name, JSONPatchType, (marshal payload).1)] ∧
    ((∃ t, patchDefaultAnnotation marshal clientset name trace = Run.exit 1 t) ↔
      clientset.patchErr
        (trace ++ [Event.patchCall name JSONPatchType (marshal payload).1]) ≠ none) ∧
    ((∃ t, patchDefaultAnnotation marshal clientset name trace = Run.ret () t) ↔
      clientset.patchErr
        (trace ++ [Event.patchCall name JSONPatchType (marshal payload).1]) = none) := by
  unfold patchDefaultAnnotation
  cases h : clientset.patchErr
      (trace ++ [Event.patchCall name JSONPatchType (marshal payload).1]) <;>
    simp [h, Run.trace, patchCalls_append, patchCalls]

/-- C9: no serialization error is ever discarded and no patch call carries the payload of a
failed serialization.  The serializer run by `patchDefaultAnnotation` returns a nil error on
the payload (and on every value of the payload type), so the error bound to the blank
identifier is always nil; the one patch call the function issues, for every target name, client
and history, carries the JSON text of the successful serialization; and the process ends with
status 1 exactly when that patch call returns an error. -/
theorem patchDefaultAnnotation_serialization_never_fails (clientset : Clientset)
    (name : String) (trace : List Event) (v : List patchStringValue) :
    (jsonMarshal payload).2 = none ∧
    (jsonMarshal v).2 = none ∧
    (jsonMarshal payload).1 =
      "[\x7b\"op\":\"replace\",\"path\":\"/metadata/annotations/storageclass.kubernetes.io~1is-default-class\",\"value\":\"false\"\x7d]" ∧
    patchCalls ( patchDefaultAnnotation jsonMarshal clientset name trace).trace =
      patchCalls trace ++ [(name, JSONPatchType,
        "[\x7b\"op\":\"replace\",\"path\":\"/metadata/annotations/storageclass.kubernetes.io~1is-default-class\",\"value\":\"false\"\x7d]")] ∧
    ((∃ t, patchDefaultAnnotation jsonMarshal clientset name trace = Run.exit 1 t) ↔
      clientset.patchErr
        (trace ++ [Event.patchCall name JSONPatchType (jsonMarshal payload).1]) ≠ none) := by
  have htext : (jsonMarshal payload).1 =
      "[\x7b\"op\":\"replace\",\"path\":\"/metadata/annotations/storageclass.kubernetes.io~1is-default-class\",\"value\":\"false\"\x7d]" := by
    decide
  have hcalls := patchDefaultAnnotation_calls jsonMarshal clientset name trace
  refine ⟨rfl, rfl, htext, ?_, hcalls.2.1⟩
  rw [← htext]
  exact hcalls.1

/-! ## The lifecycle loop -/

/-- C10: at a checkpoint of the loop (the check before a pass, or the wait after it) a step
that observes the signal logs the shutdown and leaves the process exited with status 0; from
there no step exists, and whatever the further schedule the run stays in that state, so the
list and patch calls of the whole run are those made before the signal was observed. -/
theorem signal_at_checkpoint_exits (marshal : Marshal) (clientset : Clientset)
    (name : String) (s : LoopState) (schedule : List Bool)
    (hpos : s.pos = Pos.check ∨ s.pos = Pos.wait) :
    step marshal clientset name true s =
      some { pos := Pos.exited 0, trace := s.trace ++ [Event.log "Shutting down"] } ∧
    step marshal clientset name true
      { pos := Pos.exited 0, trace := s.trace ++ [Event.log "Shutting down"] } = none ∧
    runLoop marshal clientset name (true :: schedule) s =
      { pos := Pos.exited 0, trace := s.trace ++ [Event.log "Shutting down"] } ∧
    apiCalls (runLoop marshal clientset name (true :: schedule) s).trace = apiCalls s.trace := by
  have hstep : step marshal clientset name true s =
      some { pos := Pos.exited 0, trace := s.trace ++ [Event.log "Shutting down"] } := by
    rcases hpos with h | h <;> simp [step, h, stop, LoopState.ofRun]
  have hrun : runLoop marshal clientset name (true :: schedule) s =
      { pos := Pos.exited 0, trace := s.trace ++ [Event.log "Shutting down"] } := by
    simp only [runLoop, hstep]
    exact runLoop_exited marshal clientset name 0 _ schedule
  refine ⟨hstep, by simp [step], hrun, ?_⟩
  rw [hrun]
  simp [apiCalls]

/-- Witness for C10: the signal observed during the wait after a pass that patched `gp2`;
the schedule would otherwise go on with further passes. -/
theorem signal_at_checkpoint_exits_witness :
    step textMarshal (fixedClient [markedClass "gp2" "true"]) "gp2" true
        { pos := Pos.wait, trace := [Event.listCall] } =
      some { pos := Pos.exited 0, trace := [Event.listCall] ++ [Event.log "Shutting down"] } ∧
    step textMarshal (fixedClient [markedClass "gp2" "true"]) "gp2" true
      { pos := Pos.exited 0, trace := [Event.listCall] ++ [Event.log "Shutting down"] } = none ∧
    runLoop textMarshal (fixedClient [markedClass "gp2" "true"]) "gp2"
        (true :: [false, false, false])
        { pos := Pos.wait, trace := [Event.listCall] } =
      { pos := Pos.exited 0, trace := [Event.listCall] ++ [Event.log "Shutting down"] } ∧
    apiCalls (runLoop textMarshal (fixedClient [markedClass "gp2" "true"]) "gp2"
        (true :: [false, false, false])
        { pos := Pos.wait, trace := [Event.listCall] }).trace = apiCalls [Event.listCall] :=
  signal_at_checkpoint_exits textMarshal (fixedClient [markedClass "gp2" "true"]) "gp2"
    { pos := Pos.wait, trace := [Event.listCall] } [false, false, false] (Or.inr rfl)

/-! ## Duration resolution -/

theorem durFromEnv_eq (frac : FracNanos) (environ : Environ) (env : String) (dflt : Duration) :
    durFromEnv frac environ env dflt =
      if Getenv environ env = "" then some dflt
      else ParseDuration frac (Getenv environ env ++ "s") := by
  unfold durFromEnv
  by_cases h : Getenv environ env = ""
  · simp [h]
  · have hr : (decide (lastByte (Getenv environ env) ≥ 48) ||
        decide (lastByte (Getenv environ env) ≤ 57)) = true := by
      rcases Nat.lt_or_ge (lastByte (Getenv environ env)) 48 with hlt | hge
      · have : lastByte (Getenv environ env) ≤ 57 := by omega
        simp [this]
      · simp [hge]
    simp only [h, if_false, hr, if_true]
    cases ParseDuration frac (Getenv environ env ++ "s") <;> rfl

theorem decimal_foldl_ge (ds : List Char) :
    ∀ x : Nat, x ≤ ds.foldl (fun acc c => acc * 10 + (c.toNat - 48)) x := by
  induction ds with
  | nil => intro x; exact Nat.le_refl x
  | cons c cs ih =>
    intro x
    have h := ih (x * 10 + (c.toNat - 48))
    simp only [List.foldl_cons]
    omega

theorem leadingIntLoop_digits (ds rest : List Char)
    (hd : ∀ c ∈ ds, 48 ≤ c.toNat ∧ c.toNat ≤ 57)
    (hrest : ∀ c ∈ rest.head?, c.toNat < 48 ∨ 57 < c.toNat) :
    ∀ x : Nat, ds.foldl (fun acc c => acc * 10 + (c.toNat - 48)) x ≤ 922337203685477580 →
      leadingIntLoop x (ds ++ rest) =
        some (ds.foldl (fun acc c => acc * 10 + (c.toNat - 48)) x, rest) := by
  induction ds with
  | nil =>
    intro x _
    cases rest with
    | nil => rfl
    | cons c cs =>
      have hc := hrest c (by simp)
      have : (decide (c.toNat < 48) || decide (c.toNat > 57)) = true := by
        rcases hc with h | h <;> simp [h]
      simp [leadingIntLoop, this]
  | cons c cs ih =>
    intro x hb
    have hc := hd c (List.mem_cons_self _ _)
    have hcs : ∀ c ∈ cs, 48 ≤ c.toNat ∧ c.toNat ≤ 57 :=
      fun d hmem => hd d (List.mem_cons_of_mem _ hmem)
    simp only [List.foldl_cons] at hb ⊢
    have hge := decimal_foldl_ge cs (x * 10 + (c.toNat - 48))
    have hnd : (decide (c.toNat < 48) || decide (c.toNat > 57)) = false := by
      have h1 : ¬ c.toNat < 48 := by omega
      have h2 : ¬ c.toNat > 57 := by omega
      simp [h1, h2]
    have hx : ¬ x > 2 ^ 63 / 10 := by
      have : (2 : Nat) ^ 63 / 10 = 922337203685477580 := by norm_num
      omega
    have hw : wrapUint64 (x * 10 + c.toNat - 48) = x * 10 + (c.toNat - 48) := by
      unfold wrapUint64
      have : x * 10 + c.toNat - 48 = x * 10 + (c.toNat - 48) := by omega
      rw [this]
      apply Nat.mod_eq_of_lt
      have : (2 : Nat) ^ 64 = 18446744073709551616 := by norm_num
      omega
    have hx1 : ¬ x * 10 + (c.toNat - 48) > 2 ^ 63 := by
      have : (2 : Nat) ^ 63 = 9223372036854775808 := by norm_num
      omega
    simp only [List.cons_append, leadingIntLoop, hnd, hx, hw, hx1, if_false, Bool.false_eq_true]
    exact ih hcs _ hb

theorem unitSpan_head (u : List Char) (hne : u ≠ []) (hspan : unitSpan u = (u, [])) :
    ∃ a t, u = a :: t ∧ (a == '.') = false ∧ (a.toNat < 48 ∨ 57 < a.toNat) := by
  cases u with
  | nil => exact absurd rfl hne
  | cons a t =>
    refine ⟨a, t, rfl, ?_⟩
    simp only [unitSpan] at hspan
    split at hspan
    · simp at hspan
    · rename_i hcond
      simp only [Bool.or_eq_true, Bool.and_eq_true, decide_eq_true_eq, not_or, not_and,
        Bool.not_eq_true] at hcond
      refine ⟨hcond.1, ?_⟩
      have := hcond.2
      omega

/-- One round of the parser on a run of digits followed by a unit text `u` (no digit, no
period in it): the integer part is the value of the digits and the round ends at the unit
table. -/
theorem parseRound_digits_unit (frac : FracNanos) (c : Char) (cs u : List Char) (d : Nat)
    (hd : ∀ x ∈ c :: cs, 48 ≤ x.toNat ∧ x.toNat ≤ 57)
    (hne : u ≠ []) (hspan : unitSpan u = (u, []))
    (hv : decimalValue (c :: cs) ≤ 922337203685477580) :
    parseRound frac c (cs ++ u) d =
      match unitMap (String.mk u) with
      | none => none
      | some unit =>
        if decimalValue (c :: cs) > 2 ^ 63 / unit then none
        else if wrapUint64 (d + wrapUint64 (decimalValue (c :: cs) * unit)) > 2 ^ 63 then none
        else some ([], wrapUint64 (d + wrapUint64 (decimalValue (c :: cs) * unit))) := by
  obtain ⟨a, t, hu, hdot, hnd⟩ := unitSpan_head u hne hspan
  have hc := hd c (List.mem_cons_self _ _)
  have hli : leadingInt (c :: (cs ++ u)) = some (decimalValue (c :: cs), u) := by
    have h := leadingIntLoop_digits (c :: cs) u hd
      (by intro x hx; rw [hu] at hx; simp at hx; subst hx; exact hnd) 0
      (by unfold decimalValue at hv; exact hv)
    simpa [leadingInt, decimalValue] using h
  have hfirst : (!(c == '.' || (decide (48 ≤ c.toNat) && decide (c.toNat ≤ 57)))) = false := by
    simp [hc.1, hc.2]
  have hfr : fractionPart u = (0, 1, u, false) := by
    rw [hu]
    simp only [fractionPart, hdot, Bool.false_eq_true, if_false]
  have hlen : ((c :: (cs ++ u)).length != u.length) = true := by
    simp
    omega
  have hulen : (u.length == 0) = false := by
    rw [hu]
    simp
  rw [parseRound]
  simp only [hfirst, hli, hfr, hspan, hlen, hulen, Bool.false_eq_true, if_false,
    Bool.not_true, Bool.false_and, Nat.lt_irrefl, gt_iff_lt, decide_False]

theorem parseLoop_digits_unit (frac : FracNanos) (c : Char) (cs u : List Char)
    (fuel unit : Nat)
    (hd : ∀ x ∈ c :: cs, 48 ≤ x.toNat ∧ x.toNat ≤ 57)
    (hne : u ≠ []) (hspan : unitSpan u = (u, []))
    (hum : unitMap (String.mk u) = some unit) (hunit : 0 < unit)
    (hv0 : decimalValue (c :: cs) ≤ 922337203685477580)
    (hb : decimalValue (c :: cs) * unit ≤ 2 ^ 63 - 1) :
    parseLoop frac (fuel + 1) (c :: (cs ++ u)) 0 = some (decimalValue (c :: cs) * unit) := by
  have h63 : (2 : Nat) ^ 63 = 9223372036854775808 := by norm_num
  have h64 : (2 : Nat) ^ 64 = 18446744073709551616 := by norm_num
  have hle : decimalValue (c :: cs) ≤ decimalValue (c :: cs) * unit :=
    Nat.le_mul_of_pos_right _ hunit
  have hv : ¬ decimalValue (c :: cs) > 2 ^ 63 / unit := by
    have : decimalValue (c :: cs) ≤ 2 ^ 63 / unit := by
      rw [Nat.le_div_iff_mul_le hunit]
      omega
    omega
  have hw : wrapUint64 (decimalValue (c :: cs) * unit) = decimalValue (c :: cs) * unit := by
    unfold wrapUint64
    apply Nat.mod_eq_of_lt
    omega
  have hw0 : wrapUint64 (0 + decimalValue (c :: cs) * unit) =
      decimalValue (c :: cs) * unit := by
    rw [Nat.zero_add]
    exact hw
  have hd1 : ¬ decimalValue (c :: cs) * unit > 2 ^ 63 := by omega
  rw [parseLoop, parseRound_digits_unit frac c cs u 0 hd hne hspan hv0]
  simp only [hum, hv, hw, hw0, hd1, if_false]
  simp [parseLoop]

theorem parseLoop_digits_unknown_unit (frac : FracNanos) (c : Char) (cs u : List Char)
    (fuel : Nat)
    (hd : ∀ x ∈ c :: cs, 48 ≤ x.toNat ∧ x.toNat ≤ 57)
    (hne : u ≠ []) (hspan : unitSpan u = (u, []))
    (hum : unitMap (String.mk u) = none)
    (hv : decimalValue (c :: cs) ≤ 922337203685477580) :
    parseLoop frac (fuel + 1) (c :: (cs ++ u)) 0 = none := by
  rw [parseLoop, parseRound_digits_unit frac c cs u 0 hd hne hspan hv]
  simp only [hum]

theorem wrapInt64_of_small (d : Nat) (h : d ≤ 2 ^ 63 - 1) : wrapInt64 (d : Int) = (d : Int) := by
  unfold wrapInt64
  have h63 : (2 : Nat) ^ 63 = 9223372036854775808 := by norm_num
  have e63 : (2 : Int) ^ 63 = 9223372036854775808 := by norm_num
  have e64 : (2 : Int) ^ 64 = 18446744073709551616 := by norm_num
  rw [e63, e64]
  omega

theorem ParseDuration_digits_prelude (frac : FracNanos) (c : Char) (cs u : List Char)
    (hd : ∀ x ∈ c :: cs, 48 ≤ x.toNat ∧ x.toNat ≤ 57) (hne : u ≠ []) :
    ParseDuration frac (String.mk (c :: cs) ++ String.mk u) =
      match parseLoop frac (cs.length + u.length + 1) (c :: (cs ++ u)) 0 with
      | none => none
      | some d => if d > 2 ^ 63 - 1 then none else some (wrapInt64 (d : Int)) := by
  have hc := hd c (List.mem_cons_self _ _)
  have hdata : (String.mk (c :: cs) ++ String.mk u).data = c :: (cs ++ u) := by
    simp [String.data_append]
  have hminus : (c == '-') = false := by
    rw [beq_eq_false_iff_ne]
    intro h
    rw [h] at hc
    exact absurd hc.1 (by decide)
  have hplus : (c == '+') = false := by
    rw [beq_eq_false_iff_ne]
    intro h
    rw [h] at hc
    exact absurd hc.1 (by decide)
  have hzero : ¬ (c :: (cs ++ u) = ['0']) := by
    intro h
    have hl := congrArg List.length h
    cases u with
    | nil => exact hne rfl
    | cons a t => simp at hl
  have hlen : (c :: (cs ++ u)).length = cs.length + u.length + 1 := by simp
  unfold ParseDuration
  simp only [hdata, hminus, hplus, Bool.or_self, Bool.false_eq_true, if_false, hzero, hlen,
    reduceCtorEq]

/-- A run of digits followed by a unit of the table parses to the value of the digits times
the unit, when that fits a duration. -/
theorem ParseDuration_digits_unit (frac : FracNanos) (ds u : List Char) (unit : Nat)
    (hne : ds ≠ [])
    (hd : ∀ x ∈ ds, 48 ≤ x.toNat ∧ x.toNat ≤ 57)
    (hune : u ≠ []) (hspan : unitSpan u = (u, []))
    (hum : unitMap (String.mk u) = some unit) (hunit : 0 < unit)
    (hv0 : decimalValue ds ≤ 922337203685477580)
    (hb : decimalValue ds * unit ≤ 2 ^ 63 - 1) :
    ParseDuration frac (String.mk ds ++ String.mk u) =
      some (((decimalValue ds * unit : Nat) : Int)) := by
  cases ds with
  | nil => exact absurd rfl hne
  | cons c cs =>
    have hloop := parseLoop_digits_unit frac c cs u (cs.length + u.length) unit hd hune hspan
      hum hunit hv0 hb
    have hsmall : ¬ decimalValue (c :: cs) * unit > 2 ^ 63 - 1 := by omega
    rw [ParseDuration_digits_prelude frac c cs u hd hune, hloop]
    simp only [hsmall, if_false]
    rw [wrapInt64_of_small _ hb]

/-- A run of digits followed by a text that is no unit of the table is an error. -/
theorem ParseDuration_digits_unknown_unit (frac : FracNanos) (ds u : List Char)
    (hne : ds ≠ [])
    (hd : ∀ x ∈ ds, 48 ≤ x.toNat ∧ x.toNat ≤ 57)
    (hune : u ≠ []) (hspan : unitSpan u = (u, []))
    (hum : unitMap (String.mk u) = none)
    (hv : decimalValue ds ≤ 922337203685477580) :
    ParseDuration frac (String.mk ds ++ String.mk u) = none := by
  cases ds with
  | nil => exact absurd rfl hne
  | cons c cs =>
    have hloop := parseLoop_digits_unknown_unit frac c cs u (cs.length + u.length) hd hune hspan
      hum hv
    rw [ParseDuration_digits_prelude frac c cs u hd hune, hloop]

theorem ParseDuration_digits_seconds (frac : FracNanos) (ds : List Char) (hne : ds ≠ [])
    (hd : ∀ x ∈ ds, 48 ≤ x.toNat ∧ x.toNat ≤ 57)
    (hb : decimalValue ds * 1000000000 ≤ 2 ^ 63 - 1) :
    ParseDuration frac (String.mk ds ++ "s") = some ((decimalValue ds : Int) * Second) := by
  have h := ParseDuration_digits_unit frac ds ['s'] 1000000000 hne hd (by decide) (by decide)
    (by decide) (by decide) (by omega) hb
  have e : String.mk ['s'] = "s" := rfl
  rw [e] at h
  rw [h]
  simp [Second]

/-- C6: when the environment value is a non-empty string of decimal digits denoting `n`, and
`n` seconds fit a 64-bit nanosecond duration, `durFromEnv` returns exactly `n` seconds,
whatever the default. -/
theorem durFromEnv_bare_number_is_seconds (frac : FracNanos) (environ : Environ)
    (env : String) (dflt : Duration) (ds : List Char)
    (hne : ds ≠ [])
    (hd : ∀ x ∈ ds, 48 ≤ x.toNat ∧ x.toNat ≤ 57)
    (henv : environ env = some (String.mk ds))
    (hb : decimalValue ds * 1000000000 ≤ 2 ^ 63 - 1) :
    durFromEnv frac environ env dflt = some ((decimalValue ds : Int) * Second) := by
  have hval : Getenv environ env = String.mk ds := by simp [Getenv, henv]
  have hnonempty : ¬ (String.mk ds = "") := by
    intro h
    apply hne
    have := congrArg String.data h
    simpa using this
  rw [durFromEnv_eq, hval, if_neg hnonempty]
  exact ParseDuration_digits_seconds frac ds hne hd hb

/-- Witness for C6: the value `"30"` with default 20 s gives 30 s. -/
theorem durFromEnv_bare_number_is_seconds_witness :
    durFromEnv fracZero (oneVar "CHECK_INTERVAL" "30") "CHECK_INTERVAL" (20 * Second) =
      some ((decimalValue ['3', '0'] : Int) * Second) ∧
    (decimalValue ['3', '0'] : Int) * Second = 30 * Second :=
  ⟨durFromEnv_bare_number_is_seconds fracZero (oneVar "CHECK_INTERVAL" "30") "CHECK_INTERVAL"
      (20 * Second) ['3', '0'] (by decide) (by decide) (by decide) (by decide),
    by decide⟩

/-! ### The parser's loop terminates within its fuel -/

theorem leadingIntLoop_length (s : List Char) :
    ∀ (x v : Nat) (r : List Char), leadingIntLoop x s = some (v, r) → r.length ≤ s.length := by
  induction s with
  | nil =>
    intro x v r h
    simp only [leadingIntLoop, Option.some.injEq, Prod.mk.injEq] at h
    rw [← h.2]
  | cons c cs ih =>
    intro x v r h
    simp only [leadingIntLoop] at h
    split at h
    · simp only [Option.some.injEq, Prod.mk.injEq] at h
      rw [← h.2]
    · split at h
      · exact absurd h (by simp)
      · split at h
        · exact absurd h (by simp)
        · have := ih _ v r h
          simp only [List.length_cons]
          omega

theorem leadingFractionLoop_length (s : List Char) :
    ∀ (x scale : Nat) (o : Bool), (leadingFractionLoop x scale o s).2.2.length ≤ s.length := by
  induction s with
  | nil => intro x scale o; simp [leadingFractionLoop]
  | cons c cs ih =>
    intro x scale o
    simp only [leadingFractionLoop]
    split
    · exact Nat.le_refl _
    · split
      · exact Nat.le_succ_of_le (ih _ _ _)
      · split
        · exact Nat.le_succ_of_le (ih _ _ _)
        · split
          · exact Nat.le_succ_of_le (ih _ _ _)
          · exact Nat.le_succ_of_le (ih _ _ _)

theorem unitSpan_length (s : List Char) :
    (unitSpan s).1.length + (unitSpan s).2.length = s.length := by
  induction s with
  | nil => simp [unitSpan]
  | cons c cs ih =>
    simp only [unitSpan]
    split
    · simp
    · simp only [List.length_cons]
      omega

theorem fractionPart_length (s1 : List Char) :
    (fractionPart s1).2.2.1.length ≤ s1.length := by
  unfold fractionPart
  split
  · split
    · exact Nat.le_succ_of_le (leadingFractionLoop_length _ _ _ _)
    · exact Nat.le_refl _
  · exact Nat.le_refl _

theorem parseRound_length (frac : FracNanos) (c : Char) (cs : List Char) (d : Nat)
    (s3 : List Char) (d1 : Nat) (h : parseRound frac c cs d = some (s3, d1)) :
    s3.length < (c :: cs).length := by
  unfold parseRound at h
  split at h
  · exact absurd h (by simp)
  · cases hli : leadingInt (c :: cs) with
    | none => simp [hli] at h
    | some p =>
      obtain ⟨v, s1⟩ := p
      have h1 : s1.length ≤ (c :: cs).length := leadingIntLoop_length _ _ _ _ hli
      have h2 := fractionPart_length s1
      simp only [hli] at h
      generalize fractionPart s1 = fr at h h2
      have h3 := unitSpan_length fr.2.2.1
      split at h
      · exact absurd h (by simp)
      · by_cases hu : (unitSpan fr.2.2.1).1.length = 0
        · simp [hu] at h
        · have hs3 : s3 = (unitSpan fr.2.2.1).2 := by
            repeat' (first | exact (Option.some_ne_none _ h.symm).elim | split at h)
            all_goals
              simp only [Option.some.injEq, Prod.mk.injEq] at h
              exact h.1.symm
          rw [hs3]
          omega

/-- Enough fuel: with at least `s.length` rounds of fuel the loop never stops for lack of
fuel, so its result does not depend on the fuel. -/
theorem parseLoop_fuel (frac : FracNanos) :
    ∀ (fuel : Nat) (s : List Char) (d : Nat) (k : Nat), s.length ≤ fuel →
      parseLoop frac (fuel + k) s d = parseLoop frac fuel s d := by
  intro fuel
  induction fuel with
  | zero =>
    intro s d k hlen
    cases s with
    | nil => simp [parseLoop]
    | cons c cs => simp at hlen
  | succ n ih =>
    intro s d k hlen
    cases s with
    | nil => simp [parseLoop]
    | cons c cs =>
      have e : n + 1 + k = (n + k) + 1 := by omega
      rw [e, parseLoop, parseLoop]
      cases hr : parseRound frac c cs d with
      | none => rfl
      | some p =>
        obtain ⟨s3, d1⟩ := p
        have hl := parseRound_length frac c cs d s3 d1 hr
        simp only
        apply ih
        simp only [List.length_cons] at hl hlen
        omega

/-! ### Resolution of the poll interval -/

theorem ParseDuration_nonneg (frac : FracNanos) (s : String) (d : Duration)
    (hret : ParseDuration frac s = some d) (hsign : s.data.head? ≠ some '-') : 0 ≤ d := by
  unfold ParseDuration at hret
  have hneg : (match s.data with
      | c :: t => if (c == '-' || c == '+') = true then (c == '-', t) else (false, s.data)
      | [] => (false, s.data)).1 = false := by
    cases hdat : s.data with
    | nil => rfl
    | cons c t =>
      have hc : (c == '-') = false := by
        rw [beq_eq_false_iff_ne]
        intro h
        apply hsign
        rw [hdat, h]
        rfl
      simp only [hc, Bool.false_or]
      split <;> rfl
  simp only [hneg] at hret
  split at hret
  · simp only [Option.some.injEq] at hret
    subst hret
    exact Int.le_refl 0
  · split at hret
    · exact absurd hret (by simp)
    · split at hret
      · exact absurd hret (by simp)
      · rename_i d0 _
        simp only [Bool.false_eq_true, if_false] at hret
        split at hret
        · exact absurd hret (by simp)
        · rename_i hsmall
          simp only [Option.some.injEq] at hret
          rw [wrapInt64_of_small d0 (by omega)] at hret
          subst hret
          exact Int.ofNat_nonneg d0

/-- C5, the code at the claim's own example: with `CHECK_INTERVAL` set to `"5m"`, a valid
duration string of 5 minutes, `durFromEnv` appends `s` all the same, parses `"5ms"` and returns
5 milliseconds; the values `"5s"` and `"1h"`, valid by themselves, end the process. -/
theorem durFromEnv_appends_seconds_to_unit_suffix (frac : FracNanos) :
    ParseDuration frac "5m" = some (5 * Minute) ∧
    durFromEnv frac (oneVar "CHECK_INTERVAL" "5m") "CHECK_INTERVAL" (20 * Second) =
      some 5000000 ∧
    ParseDuration frac "5s" = some (5 * Second) ∧
    durFromEnv frac (oneVar "CHECK_INTERVAL" "5s") "CHECK_INTERVAL" (20 * Second) = none ∧
    ParseDuration frac "1h" = some (3600 * Second) ∧
    durFromEnv frac (oneVar "CHECK_INTERVAL" "1h") "CHECK_INTERVAL" (20 * Second) = none := by
  simp only [durFromEnv_eq]
  have e1 : Getenv (oneVar "CHECK_INTERVAL" "5m") "CHECK_INTERVAL" = "5m" := by decide
  have e2 : Getenv (oneVar "CHECK_INTERVAL" "5s") "CHECK_INTERVAL" = "5s" := by decide
  have e3 : Getenv (oneVar "CHECK_INTERVAL" "1h") "CHECK_INTERVAL" = "1h" := by decide
  rw [e1, e2, e3]
  have s1 : ("5m" : String) = String.mk ['5'] ++ String.mk ['m'] := by decide
  have s2 : ("5m" ++ "s" : String) = String.mk ['5'] ++ String.mk ['m', 's'] := by decide
  have s3 : ("5s" : String) = String.mk ['5'] ++ String.mk ['s'] := by decide
  have s4 : ("5s" ++ "s" : String) = String.mk ['5'] ++ String.mk ['s', 's'] := by decide
  have s5 : ("1h" : String) = String.mk ['1'] ++ String.mk ['h'] := by decide
  have s6 : ("1h" ++ "s" : String) = String.mk ['1'] ++ String.mk ['h', 's'] := by decide
  have n5 : ("5m" : String) ≠ "" := by decide
  have n6 : ("5s" : String) ≠ "" := by decide
  have n7 : ("1h" : String) ≠ "" := by decide
  rw [if_neg n5, if_neg n6, if_neg n7, s2, s4, s6, s1, s3, s5]
  rw [ParseDuration_digits_unit frac ['5'] ['m'] 60000000000 (by decide) (by decide)
      (by decide) (by decide) (by decide) (by decide) (by decide) (by decide),
    ParseDuration_digits_unit frac ['5'] ['m', 's'] 1000000 (by decide) (by decide)
      (by decide) (by decide) (by decide) (by decide) (by decide) (by decide),
    ParseDuration_digits_unit frac ['5'] ['s'] 1000000000 (by decide) (by decide)
      (by decide) (by decide) (by decide) (by decide) (by decide) (by decide),
    ParseDuration_digits_unknown_unit frac ['5'] ['s', 's'] (by decide) (by decide)
      (by decide) (by decide) (by decide) (by decide),
    ParseDuration_digits_unit frac ['1'] ['h'] 3600000000000 (by decide) (by decide)
      (by decide) (by decide) (by decide) (by decide) (by decide) (by decide),
    ParseDuration_digits_unknown_unit frac ['1'] ['h', 's'] (by decide) (by decide)
      (by decide) (by decide) (by decide) (by decide)]
  decide

/-- C7: `durFromEnv` ends the process exactly when the environment value is non-empty and the
string handed to the parser, the value followed by `s`, is not a valid duration.  In every
case its result is the default for an empty or unset value and the parser's result otherwise:
an unset or empty value returns the default, and `"abc"` is fatal whatever the default. -/
theorem durFromEnv_fatal_iff (frac : FracNanos) (environ : Environ) (env : String)
    (dflt : Duration) :
    (durFromEnv frac environ env dflt = none ↔
      Getenv environ env ≠ "" ∧ ParseDuration frac (Getenv environ env ++ "s") = none) ∧
    durFromEnv frac environ env dflt =
      (if Getenv environ env = "" then some dflt
        else ParseDuration frac (Getenv environ env ++ "s")) ∧
    durFromEnv frac (fun _ => none) env dflt = some dflt ∧
    durFromEnv frac (fun _ => some "") env dflt = some dflt ∧
    durFromEnv frac (fun _ => none) env (20 * Second) = some (20 * Second) ∧
    durFromEnv frac (fun _ => some "abc") env dflt = none := by
  refine ⟨?_, durFromEnv_eq frac environ env dflt, ?_, ?_, ?_, ?_⟩
  · rw [durFromEnv_eq]
    by_cases h : Getenv environ env = ""
    · simp [h]
    · simp [h]
  all_goals
    rw [durFromEnv_eq]
    rfl

/-- C8 fails on the code: `durFromEnv("CHECK_INTERVAL", 20s)` returns for the value `"0"` with
the duration 0 and for the value `"-5"` with minus 5 seconds, so a returned poll interval need
not be greater than zero. -/
theorem checkInterval_not_always_positive :
    durFromEnv fracZero (oneVar "CHECK_INTERVAL" "0") "CHECK_INTERVAL" (20 * Second) = some 0 ∧
    durFromEnv fracZero (oneVar "CHECK_INTERVAL" "-5") "CHECK_INTERVAL" (20 * Second) =
      some (-5 * Second) ∧
    ¬ ∀ (frac : FracNanos) (environ : Environ) (d : Duration),
      durFromEnv frac environ "CHECK_INTERVAL" (20 * Second) = some d → 0 < d := by
  have h0 : durFromEnv fracZero (oneVar "CHECK_INTERVAL" "0") "CHECK_INTERVAL" (20 * Second) =
      some 0 := by
    rw [durFromEnv_eq]
    rfl
  refine ⟨h0, ?_, ?_⟩
  · rw [durFromEnv_eq]
    rfl
  · intro h
    exact absurd (h fracZero (oneVar "CHECK_INTERVAL" "0") 0 h0) (by decide)

/-- C8, as the code behaves: when `durFromEnv("CHECK_INTERVAL", 20s)` returns and the value of
the variable does not begin with `-`, the returned duration is not negative; for an unset or
empty value it is the default of 20 seconds, which is greater than zero. -/
theorem checkInterval_nonneg (frac : FracNanos) (environ : Environ) (d : Duration)
    (hret : durFromEnv frac environ "CHECK_INTERVAL" (20 * Second) = some d)
    (hsign : (Getenv environ "CHECK_INTERVAL").data.head? ≠ some '-') :
    0 ≤ d ∧
    (durFromEnv frac (fun _ => none) "CHECK_INTERVAL" (20 * Second) = some (20 * Second) ∧
      durFromEnv frac (fun _ => some "") "CHECK_INTERVAL" (20 * Second) = some (20 * Second) ∧
      0 < 20 * Second) := by
  refine ⟨?_, ?_, ?_, by decide⟩
  · rw [durFromEnv_eq] at hret
    by_cases hval : Getenv environ "CHECK_INTERVAL" = ""
    · rw [if_pos hval] at hret
      simp only [Option.some.injEq] at hret
      rw [← hret]
      decide
    · rw [if_neg hval] at hret
      apply ParseDuration_nonneg frac _ d hret
      have hdata : (Getenv environ "CHECK_INTERVAL").data ≠ [] := by
        intro h
        apply hval
        cases hg : Getenv environ "CHECK_INTERVAL"
        rw [hg] at h
        simp only at h
        rw [h]
      rw [String.data_append]
      cases hg : (Getenv environ "CHECK_INTERVAL").data with
      | nil => exact absurd hg hdata
      | cons c t =>
        rw [hg] at hsign
        simpa using hsign
  · rw [durFromEnv_eq]
    rfl
  · rw [durFromEnv_eq]
    rfl

/-- Witness for C8 as amended: the value `"30"` returns 30 seconds. -/
theorem checkInterval_nonneg_witness :
    0 ≤ (30000000000 : Duration) ∧
    (durFromEnv fracZero (fun _ => none) "CHECK_INTERVAL" (20 * Second) = some (20 * Second) ∧
      durFromEnv fracZero (fun _ => some "") "CHECK_INTERVAL" (20 * Second) =
        some (20 * Second) ∧
      0 < 20 * Second) :=
  checkInterval_nonneg fracZero (oneVar "CHECK_INTERVAL" "30") 30000000000
    (by rw [durFromEnv_eq]; rfl) (by decide)

end StorageClassController
